import Mathlib

/-!
A shallow embedding of the query-and-projection core of the promotion
catalog service (`src/main.py`, `src/schemas.py`): the filter compiler,
the document normalizer (`serialize`), the business-enrichment join in
`list_promotions`, promotion creation with its referential check, and the
targeted active-flag update.  The document-store gateway (`database.py`,
not part of the given sources) and the store's evaluation of compiled
predicates are modelled from the spec where noted.
-/

namespace PromoSaas

/-- A stored field value: the BSON value shapes this service actually
reads and writes (strings, booleans, numbers, date/datetime values that
expose `isoformat`, opaque `ObjectId` identifiers, string arrays, null). -/
inductive Value where
  | null
  | str (s : String)
  | bool (b : Bool)
  | num (q : Rat)
  | dt (iso : String)
  | oid (s : String)
  | list (l : List String)
deriving DecidableEq, Repr

/-- A stored document: an ordered key/value dictionary. -/
abbrev Doc := List (String × Value)

/-- `d[k]` lookup on a document (first binding of the key, as in a
Python dict, whose keys are unique). -/
def getField (d : Doc) (k : String) : Option Value :=
  (d.find? (fun kv => kv.1 == k)).map (fun kv => kv.2)

/-- Whether the key is present in the document. -/
def hasField (d : Doc) (k : String) : Bool :=
  d.any (fun kv => kv.1 == k)

/-- Remove a key from a document (`doc.pop(k)` discarding the value). -/
def eraseField (d : Doc) (k : String) : Doc :=
  d.filter (fun kv => kv.1 != k)

/-- `d[k] = v` assignment on a document. -/
def setField (d : Doc) (k : String) (v : Value) : Doc :=
  eraseField d k ++ [(k, v)]

/-- Python `str(...)` rendering of a stored value, as used for
`str(doc.pop("_id"))` and the business-map keys `str(b["_id"])`; an
`ObjectId` renders as its hex string. -/
def valueToString : Value → String
  | .null => "None"
  | .str s => s
  | .bool b => cond b "True" "False"
  | .num q => toString q
  | .dt s => s
  | .oid s => s
  | .list l => String.intercalate ", " l

/-- The compiled filter clauses appearing in `list_businesses` and
`list_promotions`: a case-insensitive `$regex` disjunction over named
text fields, or a single-field equality/membership test. -/
inductive Clause where
  | regexOr (fields : List String) (pat : String)
  | eqF (field : String) (v : Value)
deriving DecidableEq, Repr

/-- A compiled compound predicate: the (possibly empty) list of `$and`
clauses; `[]` is the empty filter `{}` that matches every document. -/
abbrev Filter := List Clause

/-- Modelled from the spec: the store's case-insensitive `$regex`
matching of the free-text criterion, which the spec fixes as
"case-insensitive substring match" (the gateway `database.py` and the
store are external to the given sources). -/
def ciContains (hay pat : String) : Bool :=
  (List.range (hay.toLower.length + 1)).any
    (fun i => ((hay.toLower.drop i).take pat.toLower.length) == pat.toLower)

/-- One `{field: {"$regex": pat, "$options": "i"}}` arm: the field holds
a string containing the pattern case-insensitively. -/
def evalRegexField (d : Doc) (pat : String) (f : String) : Bool :=
  match getField d f with
  | some (.str s) => ciContains s pat
  | _ => false

/-- Modelled from the spec: the store's evaluation of one compiled
clause on a document — the free-text clause is an OR of per-field
case-insensitive substring tests, and a field equality test matches the
stored value itself or, on an array field, one of its elements. -/
def evalClause (c : Clause) (d : Doc) : Bool :=
  match c with
  | .regexOr fs pat => fs.any (evalRegexField d pat)
  | .eqF f v =>
    match getField d f with
    | some (.list l) =>
      (Value.list l == v) || (match v with | .str s => l.contains s | _ => false)
    | some w => w == v
    | none => false

/-- Modelled from the spec: the store matches a compound predicate when
every `$and` clause matches; the empty filter matches every document. -/
def matchesFilter (f : Filter) (d : Doc) : Bool :=
  f.all (fun c => evalClause c d)

/-- Modelled from the spec: `get_documents(collection, filter, limit)`
of the absent gateway returns the documents matching the compiled
predicate, capped at `limit`. -/
def get_documents (docs : List Doc) (f : Filter) (limit : Nat) : List Doc :=
  (docs.filter (fun d => matchesFilter f d)).take limit

/-- The text fields the business free-text criterion searches. -/
def businessTextFields : List String := ["name", "description", "industry"]

/-- The text fields the promotion free-text criterion searches. -/
def promotionTextFields : List String := ["title", "description", "terms"]

/-- The clauses `if q:` contributes: the `$or` regex clause when `q` is
truthy (a non-`None`, non-empty string), else nothing. -/
def qClauses (fields : List String) (q : Option String) : Filter :=
  match q with
  | some s => if s.isEmpty then [] else [Clause.regexOr fields s]
  | none => []

/-- The clause `if tag:` contributes: `{"tags": tag}` when truthy. -/
def tagClauses (tag : Option String) : Filter :=
  match tag with
  | some t => if t.isEmpty then [] else [Clause.eqF "tags" (.str t)]
  | none => []

/-- The clause `if business_id:` contributes: `{"business_id": business_id}`
when truthy. -/
def businessIdClauses (business_id : Option String) : Filter :=
  match business_id with
  | some b => if b.isEmpty then [] else [Clause.eqF "business_id" (.str b)]
  | none => []

/-- The clause `if active is not None:` contributes:
`{"is_active": active}`. -/
def activeClauses (active : Option Bool) : Filter :=
  match active with
  | some a => [Clause.eqF "is_active" (.bool a)]
  | none => []

/-- The filter compiled by `list_businesses`: a free-text `$or` clause
when `q` is truthy, else the empty filter. -/
def businessFilter (q : Option String) : Filter :=
  qClauses businessTextFields q

/-- The filter compiled by `list_promotions`: each supplied criterion
appends its clause to the `$and` list, in source order. -/
def promotionFilter (q tag business_id : Option String) (active : Option Bool) : Filter :=
  qClauses promotionTextFields q ++ tagClauses tag
    ++ businessIdClauses business_id ++ activeClauses active

/-- The `active` value `list_promotions` uses when the caller supplies
no active-flag parameter (`active: Optional[bool] = True`). -/
def defaultActive : Option Bool := some true

/-- The per-criterion test of the free-text criterion: no condition
when absent or empty, else the OR of per-field substring tests. -/
def textTest (fields : List String) (q : Option String) (d : Doc) : Bool :=
  match q with
  | none => true
  | some s => if s.isEmpty then true else fields.any (evalRegexField d s)

/-- The per-criterion test of the tag criterion: no condition when
absent or empty, else membership/equality on the `tags` field. -/
def tagTest (tag : Option String) (d : Doc) : Bool :=
  match tag with
  | none => true
  | some t =>
    if t.isEmpty then true
    else
      match getField d "tags" with
      | some (.list l) => (Value.list l == Value.str t) || l.contains t
      | some w => w == Value.str t
      | none => false

/-- The per-criterion test of the business-reference criterion: no
condition when absent or empty, else equality on `business_id`. -/
def businessIdTest (business_id : Option String) (d : Doc) : Bool :=
  match business_id with
  | none => true
  | some b =>
    if b.isEmpty then true
    else
      match getField d "business_id" with
      | some (.list l) => (Value.list l == Value.str b) || l.contains b
      | some w => w == Value.str b
      | none => false

/-- The per-criterion test of the active-flag criterion: no condition
when unset, else equality on `is_active`. -/
def activeTest (active : Option Bool) (d : Doc) : Bool :=
  match active with
  | none => true
  | some a =>
    match getField d "is_active" with
    | some (.list l) => Value.list l == Value.bool a
    | some w => w == Value.bool a
    | none => false

/-- The client-facing error taxonomy raised by the embedded handlers
(`HTTPException` details of `main.py`). -/
inductive Err where
  | invalidId               -- 400 "Invalid id format"
  | relatedBusinessMissing  -- 400 "Related business does not exist"
  | businessNotFound        -- 404 "Business not found"
  | promotionNotFound       -- 404 "Promotion not found"
  | noFieldsToUpdate        -- 400 "No fields to update"
  | keyError (k : String)   -- an uncaught Python KeyError
deriving DecidableEq, Repr

/-- The HTTP status code of each raised error. -/
def Err.status : Err → Nat
  | .invalidId => 400
  | .relatedBusinessMissing => 400
  | .businessNotFound => 404
  | .promotionNotFound => 404
  | .noFieldsToUpdate => 400
  | .keyError _ => 500

/-- Whether a string is a well-formed `ObjectId` literal: 24 hex
characters (what `bson.ObjectId(id_str)` accepts for a `str`). -/
def validObjectId (s : String) : Bool :=
  s.length == 24 && s.toList.all (fun c => c.isDigit || (c.toLower ≥ 'a' && c.toLower ≤ 'f'))

/-- `to_object_id`: parse the identifier string, raising the 400
invalid-format error when `ObjectId(id_str)` would. -/
def to_object_id (s : String) : Except Err String :=
  if validObjectId s then .ok s else .error .invalidId

/-- The per-entry ISO conversion of `serialize`: a value exposing
`isoformat` (date/datetime) is rendered as its ISO string, all other
entries pass through. -/
def isoEntry (kv : String × Value) : String × Value :=
  match kv.2 with
  | .dt s => (kv.1, Value.str s)
  | _ => kv

/-- `serialize` on one document known to be non-`None`: empty documents
are falsy and pass through; otherwise `doc.pop("_id")` (a `KeyError`
when absent) is rendered with `str` into a new `id` field, and every
value exposing `isoformat` is rendered as its ISO string. -/
def serializeDoc (d : Doc) : Except Err Doc :=
  if d.isEmpty then .ok d
  else
    match getField d "_id" with
    | none => .error (.keyError "_id")
    | some v =>
      .ok ((setField (eraseField d "_id") "id" (.str (valueToString v))).map isoEntry)

/-- `serialize(doc)`: a `None` (or otherwise falsy) input is returned
unchanged; any other document is normalized by `serializeDoc`. -/
def serialize : Option Doc → Except Err (Option Doc)
  | none => .ok none
  | some d =>
    if d.isEmpty then .ok (some d)
    else (serializeDoc d).map some

/-- The two collections of the store. -/
structure Store where
  business : List Doc
  promotion : List Doc
deriving DecidableEq, Repr

/-- Modelled from the spec: `findOne(collection, predicate)` of the
absent gateway returns the first document matching the predicate, or
absent. -/
def findOne (docs : List Doc) (p : Doc → Bool) : Option Doc :=
  docs.find? p

/-- Modelled from the spec: `insert(collection, validatedEntity)` of the
absent gateway (`create_document`) writes one document carrying a fresh
store-assigned `_id` and returns that identifier. -/
def create_document (docs : List Doc) (fields : Doc) (newId : String) : String × List Doc :=
  (newId, docs ++ [setField fields "_id" (.oid newId)])

/-- The `Promotion` entity of `schemas.py` after validation: required
`business_id` and `title`, optional descriptive fields, `tags`
defaulting to the empty list and `is_active` defaulting to true. -/
structure Promotion where
  business_id : String
  title : String
  description : Option String := none
  image_url : Option String := none
  start_date : Option String := none
  end_date : Option String := none
  discount_type : Option String := none
  discount_value : Option Rat := none
  terms : Option String := none
  tags : List String := []
  is_active : Bool := true
deriving DecidableEq, Repr

/-- An optional field of the validated entity as a stored value. -/
def optStr : Option String → Value
  | none => .null
  | some s => .str s

/-- An optional date field of the validated entity as a stored value. -/
def optDate : Option String → Value
  | none => .null
  | some s => .dt s

/-- The document written for a validated `Promotion`. -/
def promotionToDoc (p : Promotion) : Doc :=
  [("business_id", .str p.business_id),
   ("title", .str p.title),
   ("description", optStr p.description),
   ("image_url", optStr p.image_url),
   ("start_date", optDate p.start_date),
   ("end_date", optDate p.end_date),
   ("discount_type", optStr p.discount_type),
   ("discount_value", match p.discount_value with | none => .null | some q => .num q),
   ("terms", optStr p.terms),
   ("tags", .list p.tags),
   ("is_active", .bool p.is_active)]

/-- `create_promotion`: parse the business reference, check the
referenced business exists (`find_one` on `_id`), and only then insert
the validated document; each failure leaves the store untouched.
`newId` makes the store-assigned identifier explicit. -/
def create_promotion (st : Store) (newId : String) (p : Promotion) :
    Except Err String × Store :=
  match to_object_id p.business_id with
  | .error e => (.error e, st)
  | .ok oid =>
    match findOne st.business (fun b => getField b "_id" == some (.oid oid)) with
    | none => (.error .relatedBusinessMissing, st)
    | some _ =>
      let res := create_document st.promotion (promotionToDoc p) newId
      (.ok res.1, ⟨st.business, res.2⟩)

/-- Modelled from the spec: `updateFields` (`update_one` with `$set`) of
the absent gateway updates the first document matching the predicate and
reports the matched count. -/
def updateOne (docs : List Doc) (p : Doc → Bool) (f : Doc → Doc) : Nat × List Doc :=
  match docs with
  | [] => (0, [])
  | d :: rest =>
    if p d then (1, f d :: rest)
    else
      let r := updateOne rest p f
      (r.1, d :: r.2)

/-- Apply a `$set` update dictionary to a document. -/
def setFields (d : Doc) (u : Doc) : Doc :=
  u.foldl (fun a kv => setField a kv.1 kv.2) d

/-- `update_promotion_status`: build the update dictionary from the
optional `is_active` parameter; an empty update raises 400 before any
store access; otherwise parse the identifier, `$set`-update the first
matching promotion, raise 404 when nothing matched, and return the
re-fetched document serialized. -/
def update_promotion_status (st : Store) (promo_id : String) (is_active : Option Bool) :
    Except Err (Option Doc) × Store :=
  let update : Doc := match is_active with
    | some v => [("is_active", Value.bool v)]
    | none => []
  if update.isEmpty then (.error .noFieldsToUpdate, st)
  else
    match to_object_id promo_id with
    | .error e => (.error e, st)
    | .ok oid =>
      let res := updateOne st.promotion
        (fun d => getField d "_id" == some (.oid oid)) (fun d => setFields d update)
      let st' : Store := ⟨st.business, res.2⟩
      if res.1 == 0 then (.error .promotionNotFound, st')
      else
        let updated := findOne st'.promotion (fun d => getField d "_id" == some (.oid oid))
        match serialize updated with
        | .error e => (.error e, st')
        | .ok d => (.ok d, st')

/-- The projection `{"name": 1, "industry": 1}` used for the business
bulk fetch: keep `_id` and the two named fields. -/
def projectBusiness (d : Doc) : Doc :=
  d.filter (fun kv => kv.1 == "_id" || kv.1 == "name" || kv.1 == "industry")

/-- Build the business lookup dictionary
`{str(b["_id"]): b for b in ...}`; a business lacking `_id` raises
`KeyError`, and a duplicate rendered key keeps the later entry. -/
def buildBusinessMap (bs : List Doc) : Except Err (List (String × Doc)) :=
  bs.mapM (fun b =>
    match getField b "_id" with
    | some v => .ok (valueToString v, b)
    | none => .error (.keyError "_id"))

/-- `dict.get` on the built lookup: the last binding of the key wins. -/
def pyGet (m : List (String × Doc)) (k : String) : Option Doc :=
  (m.reverse.find? (fun kv => kv.1 == k)).map (fun kv => kv.2)

/-- The store-level reading of the business lookup: the business whose
rendered `_id` equals the key (the last one, matching dict overwrite
semantics). -/
def lookupBusiness (st : Store) (s : String) : Option Doc :=
  st.business.reverse.find? (fun b => (getField b "_id").map valueToString == some s)

/-- The enrichment of one serialized promotion: look its
`business_id` up in the lookup and, when found, copy the business's
`name` into `business_name` and `industry` into `industry` (`dict.get`
yielding null for an absent source field). -/
def enrichDoc (bmap : List (String × Doc)) (sd : Doc) : Doc :=
  let key : Option Doc :=
    match getField sd "business_id" with
    | some (.str s) => pyGet bmap s
    | _ => none
  match key with
  | some biz =>
    setField (setField sd "business_name" ((getField biz "name").getD .null))
      "industry" ((getField biz "industry").getD .null)
  | none => sd

/-- Serialize then enrich one fetched promotion document. -/
def processDoc (bmap : List (String × Doc)) (d : Doc) : Except Err Doc :=
  (serializeDoc d).map (enrichDoc bmap)

/-- `list_promotions`: compile the filter from the four optional
criteria, fetch matching promotions up to `limit`, bulk-fetch the
projected business collection once into a lookup, and serialize and
enrich each promotion. -/
def list_promotions (st : Store) (q tag business_id : Option String)
    (active : Option Bool) (limit : Nat) : Except Err (List Doc) := do
  let docs := get_documents st.promotion (promotionFilter q tag business_id active) limit
  let bmap ← buildBusinessMap (st.business.map projectBusiness)
  docs.mapM (processDoc bmap)

/-- `list_businesses`: compile the free-text filter, fetch up to
`limit`, and serialize each document. -/
def list_businesses (st : Store) (q : Option String) (limit : Nat) :
    Except Err (List Doc) :=
  (get_documents st.business (businessFilter q) limit).mapM serializeDoc

/-- A sample stored promotion before an activation update. -/
def samplePromoOld : Doc :=
  [("_id", Value.oid "aaaaaaaaaaaaaaaaaaaaaaaa"), ("title", Value.str "Sale"),
   ("is_active", Value.bool false)]

/-- `samplePromoOld` after its active flag is set to true. -/
def samplePromoNew : Doc :=
  [("_id", Value.oid "aaaaaaaaaaaaaaaaaaaaaaaa"), ("title", Value.str "Sale"),
   ("is_active", Value.bool true)]

/-- The serialized form of `samplePromoNew` returned by the update. -/
def sampleSerialized : Doc :=
  [("title", Value.str "Sale"), ("is_active", Value.bool true),
   ("id", Value.str "aaaaaaaaaaaaaaaaaaaaaaaa")]

/-- The business of the spec's enrichment example. -/
def acmeBusiness : Doc :=
  [("_id", Value.oid "b1"), ("name", Value.str "Acme"),
   ("industry", Value.str "Retail")]

/-- The stored promotion of the spec's enrichment example, as written by
a validated insert. -/
def salePromotion : Doc :=
  setField (promotionToDoc { business_id := "b1", title := "Sale" }) "_id" (.oid "p1")

/-- The store of the spec's enrichment example. -/
def sampleStore : Store := ⟨[acmeBusiness], [salePromotion]⟩

/-- A stored promotion referencing a business absent from `sampleStore`. -/
def orphanPromotion : Doc :=
  setField (promotionToDoc { business_id := "b2", title := "Lost" }) "_id" (.oid "p2")

/-- A store holding one business and one promotion whose reference
matches nothing. -/
def missStore : Store := ⟨[acmeBusiness], [orphanPromotion]⟩

/-- The document the listing of `sampleStore` returns: `salePromotion`
serialized and enriched with the Acme fields. -/
def enrichedSale : Doc :=
  [("business_id", Value.str "b1"), ("title", Value.str "Sale"),
   ("description", Value.null), ("image_url", Value.null),
   ("start_date", Value.null), ("end_date", Value.null),
   ("discount_type", Value.null), ("discount_value", Value.null),
   ("terms", Value.null), ("tags", Value.list []),
   ("is_active", Value.bool true), ("id", Value.str "p1"),
   ("business_name", Value.str "Acme"), ("industry", Value.str "Retail")]

/-! ## Basic document lemmas -/

theorem find?_filter_of_imp {α} (l : List α) (p q : α → Bool)
    (h : ∀ x, p x = true → q x = true) :
    (l.filter q).find? p = l.find? p := by
  induction l with
  | nil => rfl
  | cons a t ih =>
    by_cases hq : q a = true
    · rw [List.filter_cons, if_pos hq, List.find?_cons, List.find?_cons]
      cases hp : p a
      · exact ih
      · rfl
    · have hp : p a = false := by
        cases hpa : p a
        · rfl
        · exact absurd (h a hpa) hq
      rw [List.filter_cons, if_neg hq, List.find?_cons, hp, ih]

theorem getField_eraseField_ne (d : Doc) (k k' : String) (h : k' ≠ k) :
    getField (eraseField d k) k' = getField d k' := by
  unfold getField eraseField
  rw [find?_filter_of_imp]
  intro x hx
  simp only [beq_iff_eq] at hx
  simp [bne_iff_ne, hx, h]

theorem getField_setField_self (d : Doc) (k : String) (v : Value) :
    getField (setField d k v) k = some v := by
  unfold setField
  unfold getField eraseField
  rw [List.find?_append]
  have h1 : (d.filter (fun kv => kv.1 != k)).find? (fun kv => kv.1 == k) = none := by
    rw [List.find?_eq_none]
    intro x hx
    have hx2 := List.of_mem_filter hx
    simp only [bne_iff_ne, ne_eq, decide_eq_true_eq] at hx2
    simp [hx2]
  simp [h1, List.find?_cons]

theorem getField_setField_ne (d : Doc) (k k' : String) (v : Value) (h : k' ≠ k) :
    getField (setField d k v) k' = getField d k' := by
  unfold setField
  have h2 : getField (eraseField d k ++ [(k, v)]) k' = getField (eraseField d k) k' := by
    unfold getField
    rw [List.find?_append]
    have : List.find? (fun kv => kv.1 == k') [(k, v)] = none := by
      simp [List.find?_cons, (Ne.symm h)]
    rw [this]
    cases (eraseField d k).find? (fun kv => kv.1 == k') <;> rfl
  rw [h2, getField_eraseField_ne d k k' h]

theorem hasField_setField_ne (d : Doc) (k k' : String) (v : Value) (h : k' ≠ k) :
    hasField (setField d k v) k' = hasField d k' := by
  unfold hasField setField eraseField
  rw [List.any_append]
  have h1 : List.any [(k, v)] (fun kv => kv.1 == k') = false := by
    simp [Ne.symm h]
  rw [h1, Bool.or_false]
  induction d with
  | nil => rfl
  | cons a t ih =>
    by_cases ha : a.1 = k
    · have hne : (a.1 == k') = false := by simp [ha, Ne.symm h]
      rw [List.filter_cons, if_neg (by simp [ha]), ih, List.any_cons]
      simp [hne]
    · simp [List.filter_cons, ha, List.any_cons, ih]

theorem hasField_false_getField (d : Doc) (k : String) (h : hasField d k = false) :
    getField d k = none := by
  unfold getField
  unfold hasField at h
  have hnone : d.find? (fun kv => kv.1 == k) = none := by
    rw [List.find?_eq_none]
    intro x hx hpx
    rw [List.any_eq_false] at h
    exact h x hx hpx
  simp [hnone]

/-! ## Filter compiler: decomposition into the per-criterion tests -/

theorem all_qClauses (fields : List String) (q : Option String) (d : Doc) :
    matchesFilter (qClauses fields q) d = textTest fields q d := by
  cases q with
  | none => rfl
  | some s =>
    by_cases h : s.isEmpty <;>
      simp [qClauses, textTest, matchesFilter, evalClause, h]

theorem all_tagClauses (tag : Option String) (d : Doc) :
    matchesFilter (tagClauses tag) d = tagTest tag d := by
  cases tag with
  | none => rfl
  | some t =>
    by_cases h : t.isEmpty
    · simp [tagClauses, tagTest, matchesFilter, h]
    · simp only [tagClauses, tagTest, if_neg h, matchesFilter, List.all_cons,
        List.all_nil, Bool.and_true, evalClause]

theorem all_businessIdClauses (business_id : Option String) (d : Doc) :
    matchesFilter (businessIdClauses business_id) d = businessIdTest business_id d := by
  cases business_id with
  | none => rfl
  | some b =>
    by_cases h : b.isEmpty
    · simp [businessIdClauses, businessIdTest, matchesFilter, h]
    · simp only [businessIdClauses, businessIdTest, if_neg h, matchesFilter,
        List.all_cons, List.all_nil, Bool.and_true, evalClause]

theorem all_activeClauses (active : Option Bool) (d : Doc) :
    matchesFilter (activeClauses active) d = activeTest active d := by
  cases active with
  | none => rfl
  | some a =>
    simp only [activeClauses, activeTest, matchesFilter, List.all_cons,
      List.all_nil, Bool.and_true, evalClause]
    cases hg : getField d "is_active" with
    | none => rfl
    | some w => cases w <;> simp

theorem matchesFilter_append (f1 f2 : Filter) (d : Doc) :
    matchesFilter (f1 ++ f2) d = (matchesFilter f1 d && matchesFilter f2 d) :=
  List.all_append

theorem evalRegexField_setField_ne (d : Doc) (pat f k : String) (v : Value)
    (h : f ≠ k) :
    evalRegexField (setField d k v) pat f = evalRegexField d pat f := by
  unfold evalRegexField
  rw [getField_setField_ne d k f v h]

theorem textTest_setField_ne (fields : List String) (q : Option String) (d : Doc)
    (k : String) (v : Value) (h : ∀ f ∈ fields, f ≠ k) :
    textTest fields q (setField d k v) = textTest fields q d := by
  cases q with
  | none => rfl
  | some s =>
    by_cases hs : s.isEmpty
    · simp [textTest, hs]
    · simp only [textTest, if_neg hs]
      induction fields with
      | nil => rfl
      | cons f t ih =>
        rw [List.any_cons, List.any_cons,
          evalRegexField_setField_ne d s f k v (h f (by simp)),
          ih (fun g hg => h g (by simp [hg]))]

theorem tagTest_setField_ne (tag : Option String) (d : Doc) (k : String) (v : Value)
    (h : ("tags" : String) ≠ k) :
    tagTest tag (setField d k v) = tagTest tag d := by
  unfold tagTest
  cases tag with
  | none => rfl
  | some t => rw [getField_setField_ne d k "tags" v h]

theorem businessIdTest_setField_ne (business_id : Option String) (d : Doc)
    (k : String) (v : Value) (h : ("business_id" : String) ≠ k) :
    businessIdTest business_id (setField d k v) = businessIdTest business_id d := by
  unfold businessIdTest
  cases business_id with
  | none => rfl
  | some b => rw [getField_setField_ne d k "business_id" v h]

/-! ## Claim theorems about the filter compiler -/

/-- C2: a document matches the compiled promotion filter exactly when it
passes each supplied criterion's individual per-field test (AND
semantics; an absent criterion imposes no condition and omitting one
never changes another's evaluation), and the compiled business filter
likewise reduces to its free-text test. -/
theorem compiled_filter_is_conjunction (q tag business_id : Option String)
    (active : Option Bool) (d : Doc) :
    (matchesFilter (promotionFilter q tag business_id active) d =
      (textTest promotionTextFields q d && tagTest tag d &&
        businessIdTest business_id d && activeTest active d)) ∧
    matchesFilter (businessFilter q) d = textTest businessTextFields q d := by
  constructor
  · rw [promotionFilter, matchesFilter_append, matchesFilter_append,
      matchesFilter_append, all_qClauses, all_tagClauses,
      all_businessIdClauses, all_activeClauses]
  · exact all_qClauses businessTextFields q d

/-- C1: when the caller supplies no active parameter the compiled filter
carries the `is_active = true` clause, so only documents whose active
flag is true can match; when the caller explicitly passes an unset
active value, no clause tests `is_active` and the match result is
independent of the document's active flag. -/
theorem active_flag_default_policy (q tag business_id : Option String)
    (d : Doc) (b : Bool) :
    (Clause.eqF "is_active" (.bool true) ∈
      promotionFilter q tag business_id defaultActive) ∧
    (matchesFilter (promotionFilter q tag business_id defaultActive) d = true →
      getField d "is_active" = some (.bool true)) ∧
    (∀ v : Value, Clause.eqF "is_active" v ∉ promotionFilter q tag business_id none) ∧
    (matchesFilter (promotionFilter q tag business_id none)
        (setField d "is_active" (.bool b)) =
      matchesFilter (promotionFilter q tag business_id none) d) := by
  refine ⟨?_, ?_, ?_, ?_⟩
  · simp [promotionFilter, activeClauses, defaultActive, List.mem_append]
  · intro hm
    rw [promotionFilter, matchesFilter_append, matchesFilter_append,
      matchesFilter_append, all_qClauses, all_tagClauses,
      all_businessIdClauses, all_activeClauses] at hm
    simp only [Bool.and_eq_true] at hm
    have h4 : activeTest defaultActive d = true := hm.2
    unfold activeTest defaultActive at h4
    cases hg : getField d "is_active" with
    | none => rw [hg] at h4; exact absurd h4 (by simp)
    | some w =>
      rw [hg] at h4
      cases w with
      | null => exact Bool.noConfusion h4
      | str s => simp [beq_iff_eq] at h4
      | bool b' => simp only [beq_iff_eq, Value.bool.injEq] at h4; rw [h4]
      | num n => simp [beq_iff_eq] at h4
      | dt i => simp [beq_iff_eq] at h4
      | oid o => simp [beq_iff_eq] at h4
      | list l => simp [beq_iff_eq] at h4
  · intro v
    rcases q with _ | s <;> rcases tag with _ | t <;> rcases business_id with _ | bb <;>
      simp [promotionFilter, qClauses, tagClauses, businessIdClauses, activeClauses]
  · rw [promotionFilter, matchesFilter_append, matchesFilter_append,
      matchesFilter_append, all_qClauses, all_tagClauses,
      all_businessIdClauses, all_activeClauses,
      matchesFilter_append, matchesFilter_append, matchesFilter_append,
      all_qClauses, all_tagClauses, all_businessIdClauses, all_activeClauses,
      textTest_setField_ne _ _ _ _ _ (by decide),
      tagTest_setField_ne _ _ _ _ (by decide),
      businessIdTest_setField_ne _ _ _ _ (by decide)]
    rfl

/-- Witness for C1: a concrete document matching the default filter
indeed carries `is_active = true`. -/
theorem active_flag_default_policy_witness :
    getField [("is_active", Value.bool true)] "is_active" = some (Value.bool true) :=
  (active_flag_default_policy none none none
    [("is_active", Value.bool true)] true).2.1 (by decide)

/-- C10: an empty free-text query string compiles to exactly the same
filter as an absent query, for both listings, so it imposes no
condition. -/
theorem empty_query_is_no_criterion (tag business_id : Option String)
    (active : Option Bool) :
    businessFilter (some "") = businessFilter none ∧
    promotionFilter (some "") tag business_id active =
      promotionFilter none tag business_id active := by
  constructor <;> rfl

/-- C7: for a non-empty query string, the compiled free-text criterion
(the whole business filter, and the promotion filter with the other
criteria absent and the active flag unset) matches a document exactly
when the query occurs as a case-insensitive substring of one of the
named text fields. -/
theorem free_text_is_substring_or (q : String) (d : Doc) (hq : q ≠ "") :
    (matchesFilter (businessFilter (some q)) d = true ↔
      ∃ f ∈ businessTextFields, ∃ s, getField d f = some (.str s) ∧
        ciContains s q = true) ∧
    (matchesFilter (promotionFilter (some q) none none none) d = true ↔
      ∃ f ∈ promotionTextFields, ∃ s, getField d f = some (.str s) ∧
        ciContains s q = true) := by
  have hne : q.isEmpty = false := by
    cases hq' : q.isEmpty
    · rfl
    · exact absurd ((String.isEmpty_iff q).mp hq') hq
  have key : ∀ fields : List String, (fields.any (evalRegexField d q) = true ↔
      ∃ f ∈ fields, ∃ s, getField d f = some (.str s) ∧ ciContains s q = true) := by
    intro fields
    rw [List.any_eq_true]
    constructor
    · rintro ⟨f, hf, hev⟩
      refine ⟨f, hf, ?_⟩
      unfold evalRegexField at hev
      cases hg : getField d f with
      | none => rw [hg] at hev; exact Bool.noConfusion hev
      | some w =>
        rw [hg] at hev
        cases w with
        | str s => exact ⟨s, rfl, hev⟩
        | null => exact Bool.noConfusion hev
        | bool b => exact Bool.noConfusion hev
        | num n => exact Bool.noConfusion hev
        | dt i => exact Bool.noConfusion hev
        | oid o => exact Bool.noConfusion hev
        | list l => exact Bool.noConfusion hev
    · rintro ⟨f, hf, s, hs, hc⟩
      refine ⟨f, hf, ?_⟩
      unfold evalRegexField
      rw [hs]
      exact hc
  constructor
  · have hb : matchesFilter (businessFilter (some q)) d =
        businessTextFields.any (evalRegexField d q) := by
      simp [businessFilter, qClauses, hne, matchesFilter, evalClause]
    rw [hb]
    exact key _
  · have hp : matchesFilter (promotionFilter (some q) none none none) d =
        promotionTextFields.any (evalRegexField d q) := by
      simp [promotionFilter, qClauses, tagClauses, businessIdClauses,
        activeClauses, hne, matchesFilter, evalClause]
    rw [hp]
    exact key _

/-- Witness for C7 at a concrete query and document. -/
theorem free_text_is_substring_or_witness :
    (matchesFilter (businessFilter (some "sale")) [("name", Value.str "Big SALE")] = true ↔
      ∃ f ∈ businessTextFields, ∃ s,
        getField [("name", Value.str "Big SALE")] f = some (.str s) ∧
        ciContains s "sale" = true) ∧
    (matchesFilter (promotionFilter (some "sale") none none none)
        [("name", Value.str "Big SALE")] = true ↔
      ∃ f ∈ promotionTextFields, ∃ s,
        getField [("name", Value.str "Big SALE")] f = some (.str s) ∧
        ciContains s "sale" = true) :=
  free_text_is_substring_or "sale" [("name", Value.str "Big SALE")] (by decide)

/-! ## Claim theorems about the document normalizer -/

/-- C4 counterexample: the normalizer does raise on a non-empty document
lacking the opaque identifier field — `doc.pop("_id")` is a `KeyError` —
rather than passing it through unchanged. -/
theorem serialize_missing_id_error :
    serialize (some [("x", Value.str "1")]) = .error (.keyError "_id") ∧
    serialize (some [("x", Value.str "1")]) ≠ .ok (some [("x", Value.str "1")]) := by
  constructor
  · rfl
  · intro h
    exact Except.noConfusion (show Except.error (Err.keyError "_id") =
      Except.ok (some [("x", Value.str "1")]) from h ▸ rfl)

/-- C4 (amended): the normalizer returns a null/absent input and an
empty document unchanged, and succeeds on any document carrying `_id`;
but a non-empty document lacking `_id` raises a key error instead of
passing through unchanged. -/
theorem serialize_null_passthrough_and_missing_id (d : Doc) :
    serialize none = .ok none ∧
    serialize (some []) = .ok (some []) ∧
    (d ≠ [] → getField d "_id" = none → serialize (some d) = .error (.keyError "_id")) ∧
    (∀ v, getField d "_id" = some v → ∃ d', serialize (some d) = .ok (some d')) := by
  refine ⟨rfl, rfl, ?_, ?_⟩
  · intro hne hid
    have hempty : d.isEmpty = false := by
      cases d
      · exact absurd rfl hne
      · rfl
    simp [serialize, serializeDoc, hempty, hid, Except.map]
  · intro v hv
    have hempty : d.isEmpty = false := by
      cases d
      · simp [getField] at hv
      · rfl
    refine ⟨(setField (eraseField d "_id") "id" (.str (valueToString v))).map
      isoEntry, ?_⟩
    simp [serialize, serializeDoc, hempty, hv, Except.map]

/-- Witness for C4 (amended): concrete instances of the pass-through and
success branches. -/
theorem serialize_null_passthrough_and_missing_id_witness :
    ∃ d', serialize (some [("_id", Value.oid "a")]) = .ok (some d') :=
  (serialize_null_passthrough_and_missing_id
    [("_id", Value.oid "a")]).2.2.2 (Value.oid "a") rfl

/-! ## Claim theorems about promotion creation -/

/-- C3 counterexample: a creation request whose business reference
matches no existing business (here: the empty store) can fail with the
malformed-identifier error instead of referential-violation, because the
reference string is parsed before the existence check. -/
theorem create_promotion_malformed_ref_error :
    (⟨[], []⟩ : Store).business = [] ∧
    create_promotion ⟨[], []⟩ "aaaaaaaaaaaaaaaaaaaaaaaa"
      { business_id := "b1", title := "T" } = (.error .invalidId, ⟨[], []⟩) ∧
    Err.invalidId ≠ Err.relatedBusinessMissing := by
  refine ⟨rfl, rfl, by decide⟩

/-- C3 (amended): a creation request whose business reference parses as
a well-formed identifier but matches no existing business fails with the
referential-violation error and leaves the store unchanged; a reference
that fails to parse fails with the malformed-identifier error, also
leaving the store unchanged. -/
theorem create_promotion_referential_check (st : Store) (newId : String) (p : Promotion) :
    (validObjectId p.business_id = true →
      (∀ b ∈ st.business, getField b "_id" ≠ some (.oid p.business_id)) →
      create_promotion st newId p = (.error .relatedBusinessMissing, st)) ∧
    (validObjectId p.business_id = false →
      create_promotion st newId p = (.error .invalidId, st)) := by
  constructor
  · intro hvalid hmiss
    have hfind : findOne st.business
        (fun b => getField b "_id" == some (.oid p.business_id)) = none := by
      unfold findOne
      rw [List.find?_eq_none]
      intro b hb hbeq
      simp only [beq_iff_eq] at hbeq
      exact hmiss b hb hbeq
    simp [create_promotion, to_object_id, hvalid, hfind]
  · intro hinvalid
    simp [create_promotion, to_object_id, hinvalid]

/-- Witness for C3 (amended): both failure branches on concrete
requests against the empty store. -/
theorem create_promotion_referential_check_witness :
    create_promotion ⟨[], []⟩ "aaaaaaaaaaaaaaaaaaaaaaaa"
      { business_id := "bbbbbbbbbbbbbbbbbbbbbbbb", title := "T" } =
      (.error .relatedBusinessMissing, ⟨[], []⟩) ∧
    create_promotion ⟨[], []⟩ "aaaaaaaaaaaaaaaaaaaaaaaa"
      { business_id := "b1", title := "T" } = (.error .invalidId, ⟨[], []⟩) :=
  ⟨(create_promotion_referential_check ⟨[], []⟩ "aaaaaaaaaaaaaaaaaaaaaaaa"
      { business_id := "bbbbbbbbbbbbbbbbbbbbbbbb", title := "T" }).1 (by decide) (by simp),
    (create_promotion_referential_check ⟨[], []⟩ "aaaaaaaaaaaaaaaaaaaaaaaa"
      { business_id := "b1", title := "T" }).2 (by decide)⟩

/-! ## The targeted activation-flag update -/

theorem updateOne_no_match (docs : List Doc) (p : Doc → Bool) (f : Doc → Doc)
    (h : ∀ d ∈ docs, p d = false) : updateOne docs p f = (0, docs) := by
  induction docs with
  | nil => rfl
  | cons a t ih =>
    unfold updateOne
    rw [if_neg (by simp [h a (by simp)])]
    simp [ih (fun d hd => h d (by simp [hd]))]

theorem updateOne_found (docs : List Doc) (p : Doc → Bool) (f : Doc → Doc)
    (h : (updateOne docs p f).1 ≠ 0) :
    ∃ i di, docs[i]? = some di ∧ p di = true ∧
      (updateOne docs p f).2 = docs.take i ++ f di :: docs.drop (i + 1) := by
  induction docs with
  | nil => simp [updateOne] at h
  | cons a t ih =>
    by_cases hp : p a = true
    · exact ⟨0, a, by simp, hp, by simp [updateOne, hp]⟩
    · have hp' : p a = false := by
        cases hpa : p a
        · rfl
        · exact absurd hpa hp
      have h' : (updateOne t p f).1 ≠ 0 := by
        intro h0
        apply h
        simp [updateOne, hp', h0]
      obtain ⟨i, di, hdi, hpi, heq⟩ := ih h'
      refine ⟨i + 1, di, by simpa using hdi, hpi, ?_⟩
      simp [updateOne, hp', heq]

/-- C8: updating with no update field supplied fails with the
validation error before anything else happens — even before the
identifier is parsed — leaving the store unchanged; updating a
well-formed identifier matching no promotion fails with not-found,
also leaving the store unchanged. -/
theorem update_status_error_paths (st : Store) (promo_id : String) (v : Bool) :
    update_promotion_status st promo_id none = (.error .noFieldsToUpdate, st) ∧
    (validObjectId promo_id = true →
      (∀ d ∈ st.promotion, getField d "_id" ≠ some (.oid promo_id)) →
      update_promotion_status st promo_id (some v) = (.error .promotionNotFound, st)) := by
  constructor
  · rfl
  · intro hvalid hmiss
    have hupd : updateOne st.promotion
        (fun d => getField d "_id" == some (.oid promo_id))
        (fun d => setFields d [("is_active", Value.bool v)]) = (0, st.promotion) :=
      updateOne_no_match _ _ _ (fun d hd => beq_eq_false_iff_ne.mpr (hmiss d hd))
    simp [update_promotion_status, to_object_id, hvalid, hupd]

/-- Witness for C8: both error paths on concrete inputs (note the
malformed identifier "zz" still draws the validation error, because the
empty-update check runs first). -/
theorem update_status_error_paths_witness :
    update_promotion_status ⟨[], []⟩ "zz" none = (.error .noFieldsToUpdate, ⟨[], []⟩) ∧
    update_promotion_status ⟨[], []⟩ "aaaaaaaaaaaaaaaaaaaaaaaa" (some true) =
      (.error .promotionNotFound, ⟨[], []⟩) :=
  ⟨(update_status_error_paths ⟨[], []⟩ "zz" true).1,
   (update_status_error_paths ⟨[], []⟩ "aaaaaaaaaaaaaaaaaaaaaaaa" true).2
     (by decide) (by simp)⟩

/-- C9: a successful active-flag update touches nothing but the targeted
document's `is_active` field: the business collection is unchanged, the
promotion collection keeps its length, some position `i` held a document
with the targeted identifier, that position now holds the old document
with only `is_active` overwritten (every other field reads the same),
and every other position is unchanged. -/
theorem update_status_frame (st : Store) (promo_id : String) (v : Bool)
    (r : Option Doc) (st' : Store)
    (h : update_promotion_status st promo_id (some v) = (.ok r, st')) :
    st'.business = st.business ∧
    st'.promotion.length = st.promotion.length ∧
    ∃ (i : Nat) (di : Doc), st.promotion[i]? = some di ∧
      getField di "_id" = some (.oid promo_id) ∧
      st'.promotion[i]? = some (setField di "is_active" (.bool v)) ∧
      (∀ k, k ≠ "is_active" →
        getField (setField di "is_active" (.bool v)) k = getField di k) ∧
      getField (setField di "is_active" (.bool v)) "is_active" = some (.bool v) ∧
      (∀ j, j ≠ i → st'.promotion[j]? = st.promotion[j]?) := by
  cases hvalid : validObjectId promo_id with
  | false =>
    exfalso
    simp [update_promotion_status, to_object_id, hvalid, Prod.ext_iff] at h
  | true =>
    simp only [update_promotion_status, to_object_id, hvalid, if_true,
      List.isEmpty_cons, Bool.false_eq_true, if_false] at h
    set res := updateOne st.promotion
      (fun d => getField d "_id" == some (Value.oid promo_id))
      (fun d => setFields d [("is_active", Value.bool v)]) with hres
    by_cases hz : res.1 = 0
    · rw [if_pos (by simp [hz])] at h
      exact absurd h (by simp [Prod.ext_iff])
    · rw [if_neg (by simp [hz])] at h
      cases hser : serialize (findOne res.2
          (fun d => getField d "_id" == some (Value.oid promo_id))) with
      | error e =>
        rw [hser] at h
        exact absurd h (by simp [Prod.ext_iff])
      | ok dd =>
        rw [hser] at h
        have hst' : st' = ⟨st.business, res.2⟩ := ((Prod.mk.injEq _ _ _ _).mp h).2.symm
        obtain ⟨i, di, hdi, hpi, heq2⟩ := updateOne_found _ _ _ hz
        have hid : getField di "_id" = some (.oid promo_id) := by
          simpa [beq_iff_eq] using hpi
        have hlen_i : i < st.promotion.length := by
          by_contra hge
          rw [List.getElem?_eq_none (by omega)] at hdi
          exact Option.noConfusion hdi
        have hres2 : res.2 = st.promotion.take i ++
            setField di "is_active" (.bool v) :: st.promotion.drop (i + 1) := heq2
        refine ⟨by rw [hst'], ?_, i, di, hdi, hid, ?_, ?_, ?_, ?_⟩
        · rw [hst']
          show res.2.length = st.promotion.length
          rw [hres2]
          simp [List.length_take, List.length_drop]
          omega
        · rw [hst']
          show res.2[i]? = some (setField di "is_active" (.bool v))
          rw [hres2]
          rw [List.getElem?_append_right (by simp [List.length_take]; try omega)]
          simp [List.length_take, Nat.min_eq_left hlen_i.le]
        · exact fun k hk => getField_setField_ne di "is_active" k (.bool v) hk
        · exact getField_setField_self di "is_active" (.bool v)
        · intro j hj
          rw [hst']
          show res.2[j]? = st.promotion[j]?
          rw [hres2]
          rcases lt_or_gt_of_ne hj with hlt | hgt
          · rw [List.getElem?_append, if_pos (by simp [List.length_take]; try omega)]
            simp [List.getElem?_take, hlt]
          · rw [List.getElem?_append_right (by simp [List.length_take]; try omega)]
            have hlen_take : (st.promotion.take i).length = i := by
              simp [List.length_take]
              try omega
            rw [hlen_take, List.getElem?_cons, if_neg (by omega), List.getElem?_drop]
            congr 1
            omega

/-- Witness for C9: the frame property on a concrete one-promotion
store whose document is switched from inactive to active. -/
theorem update_status_frame_witness :
    (Store.mk [] [samplePromoNew]).business = (Store.mk [] [samplePromoOld]).business ∧
    (Store.mk [] [samplePromoNew]).promotion.length =
      (Store.mk [] [samplePromoOld]).promotion.length ∧
    ∃ (i : Nat) (di : Doc),
      (Store.mk [] [samplePromoOld]).promotion[i]? = some di ∧
      getField di "_id" = some (.oid "aaaaaaaaaaaaaaaaaaaaaaaa") ∧
      (Store.mk [] [samplePromoNew]).promotion[i]? =
        some (setField di "is_active" (.bool true)) ∧
      (∀ k, k ≠ "is_active" →
        getField (setField di "is_active" (.bool true)) k = getField di k) ∧
      getField (setField di "is_active" (.bool true)) "is_active" =
        some (.bool true) ∧
      (∀ j, j ≠ i → (Store.mk [] [samplePromoNew]).promotion[j]? =
        (Store.mk [] [samplePromoOld]).promotion[j]?) :=
  update_status_frame ⟨[], [samplePromoOld]⟩ "aaaaaaaaaaaaaaaaaaaaaaaa" true
    (some sampleSerialized) ⟨[], [samplePromoNew]⟩ (by rfl)

/-! ## The enrichment join -/

theorem mapM_ok_of_all_ok {α β : Type} (f : α → Except Err β) (xs : List α)
    (h : ∀ x ∈ xs, ∃ y, f x = .ok y) : ∃ ys, xs.mapM f = .ok ys := by
  induction xs with
  | nil => exact ⟨[], rfl⟩
  | cons a t ih =>
    obtain ⟨y, hy⟩ := h a (by simp)
    obtain ⟨ys, hys⟩ := ih (fun x hx => h x (by simp [hx]))
    refine ⟨y :: ys, ?_⟩
    rw [List.mapM_cons, hy, hys]
    rfl

theorem mapM_ok_mem {α β : Type} (f : α → Except Err β) (xs : List α) (ys : List β)
    (h : xs.mapM f = .ok ys) : ∀ y ∈ ys, ∃ x ∈ xs, f x = .ok y := by
  induction xs generalizing ys with
  | nil =>
    have h' : (Except.ok [] : Except Err (List β)) = .ok ys := h
    have : ys = [] := ((Except.ok.injEq _ _).mp h').symm
    subst this
    intro y hy
    exact absurd hy (by simp)
  | cons a t ih =>
    rw [List.mapM_cons] at h
    cases hfa : f a with
    | error e =>
      rw [hfa] at h
      exact absurd (show Except.error e = Except.ok ys from h) (by simp)
    | ok y =>
      rw [hfa] at h
      cases hmt : t.mapM f with
      | error e =>
        rw [hmt] at h
        exact absurd (show Except.error e = Except.ok ys from h) (by simp)
      | ok ys' =>
        rw [hmt] at h
        have h' : ys = y :: ys' :=
          ((Except.ok.injEq _ _).mp (show Except.ok (y :: ys') = Except.ok ys from h)).symm
        subst h'
        intro z hz
        rcases List.mem_cons.mp hz with hz1 | hz2
        · exact ⟨a, by simp, by rw [hfa, hz1]⟩
        · obtain ⟨x, hx, hfx⟩ := ih ys' hmt z hz2
          exact ⟨x, by simp [hx], hfx⟩

theorem isoEntry_fst (kv : String × Value) : (isoEntry kv).1 = kv.1 := by
  obtain ⟨k, v⟩ := kv
  cases v <;> rfl

theorem hasField_map_isoEntry (l : Doc) (k : String) :
    hasField (l.map isoEntry) k = hasField l k := by
  unfold hasField
  rw [List.any_map]
  have hfun : ((fun kv : String × Value => kv.1 == k) ∘ isoEntry) =
      (fun kv : String × Value => kv.1 == k) := by
    funext kv
    simp [Function.comp, isoEntry_fst]
  rw [hfun]

theorem hasField_eraseField_false (d : Doc) (j k : String)
    (h : hasField d k = false) : hasField (eraseField d j) k = false := by
  unfold hasField eraseField
  unfold hasField at h
  rw [List.any_eq_false] at h ⊢
  intro x hx
  exact h x (List.mem_of_mem_filter hx)

theorem hasField_false_of_getField_serialize (d sd : Doc) (k : String)
    (hser : serializeDoc d = .ok sd) (hk : hasField d k = false) (hkid : k ≠ "id") :
    hasField sd k = false := by
  unfold serializeDoc at hser
  by_cases hd : d.isEmpty
  · rw [if_pos hd] at hser
    have : d = sd := (Except.ok.injEq _ _).mp hser
    rw [← this]
    exact hk
  · rw [if_neg hd] at hser
    cases hv : getField d "_id" with
    | none =>
      rw [hv] at hser
      exact absurd hser (by simp)
    | some v =>
      rw [hv] at hser
      have hsd : sd = (setField (eraseField d "_id") "id"
          (.str (valueToString v))).map isoEntry :=
        ((Except.ok.injEq _ _).mp hser).symm
      rw [hsd, hasField_map_isoEntry,
        hasField_setField_ne _ "id" k _ hkid,
        hasField_eraseField_false d "_id" k hk]

theorem getField_projectBusiness (b : Doc) (k : String)
    (h : k = "_id" ∨ k = "name" ∨ k = "industry") :
    getField (projectBusiness b) k = getField b k := by
  unfold getField projectBusiness
  rw [find?_filter_of_imp]
  intro x hx
  simp only [beq_iff_eq] at hx
  rcases h with h | h | h <;> simp [hx, h]

theorem buildBusinessMap_cons (x : Doc) (l : List Doc) :
    buildBusinessMap (x :: l) =
      (match getField x "_id" with
       | some v => (buildBusinessMap l).map (fun m => (valueToString v, x) :: m)
       | none => .error (.keyError "_id")) := by
  unfold buildBusinessMap
  rw [List.mapM_cons]
  cases hx : getField x "_id" with
  | none => rfl
  | some v =>
    cases hl : l.mapM (fun b => match getField b "_id" with
        | some v => Except.ok (valueToString v, b)
        | none => Except.error (Err.keyError "_id")) with
    | error e => rfl
    | ok m => rfl

theorem lookupBusiness_def (st : Store) (s : String) :
    lookupBusiness st s = st.business.reverse.find?
      (fun b => (getField b "_id").map valueToString == some s) := rfl

theorem buildBusinessMap_project (bs : List Doc)
    (h : ∀ b ∈ bs, ∃ v, getField b "_id" = some v) :
    ∃ m, buildBusinessMap (bs.map projectBusiness) = .ok m ∧
      ∀ s, pyGet m s = (bs.reverse.find?
        (fun b => (getField b "_id").map valueToString == some s)).map projectBusiness := by
  induction bs with
  | nil => exact ⟨[], rfl, fun s => rfl⟩
  | cons b t ih =>
    obtain ⟨v, hv⟩ := h b (by simp)
    obtain ⟨m, hm, hpy⟩ := ih (fun x hx => h x (by simp [hx]))
    have hvp : getField (projectBusiness b) "_id" = some v := by
      rw [getField_projectBusiness b "_id" (Or.inl rfl), hv]
    refine ⟨(valueToString v, projectBusiness b) :: m, ?_, ?_⟩
    · rw [List.map_cons, buildBusinessMap_cons, hvp, hm]
      rfl
    · intro s
      have hpys := hpy s
      unfold pyGet at hpys ⊢
      rw [List.reverse_cons, List.find?_append, List.reverse_cons, List.find?_append]
      cases hfm : m.reverse.find? (fun kv => kv.1 == s) with
      | some e =>
        rw [hfm] at hpys
        cases hft : t.reverse.find?
            (fun b => (getField b "_id").map valueToString == some s) with
        | none => rw [hft] at hpys; simp at hpys
        | some b' => rw [hft] at hpys; simpa using hpys
      | none =>
        rw [hfm] at hpys
        cases hft : t.reverse.find?
            (fun b => (getField b "_id").map valueToString == some s) with
        | some b' => rw [hft] at hpys; simp at hpys
        | none =>
          simp only [Option.none_or]
          by_cases hks : valueToString v = s
          · have h1 : List.find? (fun kv => kv.1 == s)
                [(valueToString v, projectBusiness b)] =
                some (valueToString v, projectBusiness b) := by
              simp [List.find?_cons, hks]
            have h2 : List.find? (fun x => (getField x "_id").map valueToString == some s)
                [b] = some b := by
              simp [List.find?_cons, hv, hks]
            rw [h1, h2]
            rfl
          · have h1 : List.find? (fun kv => kv.1 == s)
                [(valueToString v, projectBusiness b)] = none := by
              simp [List.find?_cons, hks]
            have h2 : List.find? (fun x => (getField x "_id").map valueToString == some s)
                [b] = none := by
              simp [List.find?_cons, hv, hks]
            rw [h1, h2]
            rfl

theorem serializeDoc_ok_of_id (d : Doc) (v : Value) (hv : getField d "_id" = some v) :
    serializeDoc d = .ok ((setField (eraseField d "_id") "id"
      (.str (valueToString v))).map isoEntry) := by
  have hne : d.isEmpty = false := by
    cases d
    · simp [getField] at hv
    · rfl
  unfold serializeDoc
  rw [if_neg (by simp [hne]), hv]

theorem buildBusinessMap_ok_ids (bs : List Doc) (m : List (String × Doc))
    (h : buildBusinessMap bs = .ok m) : ∀ b ∈ bs, ∃ v, getField b "_id" = some v := by
  induction bs generalizing m with
  | nil =>
    intro b hb
    exact absurd hb (by simp)
  | cons x l ih =>
    rw [buildBusinessMap_cons] at h
    cases hx : getField x "_id" with
    | none =>
      rw [hx] at h
      exact absurd h (by simp)
    | some v =>
      rw [hx] at h
      cases hl : buildBusinessMap l with
      | error e =>
        rw [hl] at h
        exact absurd h (by simp [Except.map])
      | ok m' =>
        intro b hb
        rcases List.mem_cons.mp hb with rfl | hbl
        · exact ⟨v, hx⟩
        · exact ih m' hl b hbl

theorem processDoc_cases (bmap : List (String × Doc)) (d y : Doc)
    (h : processDoc bmap d = .ok y) :
    ∃ sd, serializeDoc d = .ok sd ∧
      ((∃ s b0, getField sd "business_id" = some (.str s) ∧ pyGet bmap s = some b0 ∧
          y = setField (setField sd "business_name" ((getField b0 "name").getD .null))
            "industry" ((getField b0 "industry").getD .null)) ∨
       (y = sd ∧ ∀ s, getField sd "business_id" = some (.str s) → pyGet bmap s = none)) := by
  unfold processDoc at h
  cases hser : serializeDoc d with
  | error e =>
    rw [hser] at h
    exact absurd h (by simp [Except.map])
  | ok sd =>
    rw [hser] at h
    have hy : y = enrichDoc bmap sd :=
      ((Except.ok.injEq _ _).mp
        (show Except.ok (enrichDoc bmap sd) = .ok y from h)).symm
    refine ⟨sd, rfl, ?_⟩
    unfold enrichDoc at hy
    cases hbid : getField sd "business_id" with
    | none =>
      rw [hbid] at hy
      have hy' : y = sd := hy
      exact Or.inr ⟨hy', fun s hs => absurd hs (by simp)⟩
    | some w =>
      rw [hbid] at hy
      cases w with
      | str s =>
        have hy' : y = (match pyGet bmap s with
          | some biz => setField (setField sd "business_name"
              ((getField biz "name").getD Value.null)) "industry"
              ((getField biz "industry").getD Value.null)
          | none => sd) := hy
        cases hget : pyGet bmap s with
        | none =>
          rw [hget] at hy'
          refine Or.inr ⟨hy', fun s' hs' => ?_⟩
          have hss : s' = s := by
            have h1 := (Option.some.injEq _ _).mp hs'
            exact ((Value.str.injEq _ _).mp h1).symm
          rw [hss]
          exact hget
        | some b0 =>
          rw [hget] at hy'
          exact Or.inl ⟨s, b0, rfl, hget, hy'⟩
      | null => exact Or.inr ⟨hy, fun s hs => absurd hs (by simp)⟩
      | bool b => exact Or.inr ⟨hy, fun s hs => absurd hs (by simp)⟩
      | num n => exact Or.inr ⟨hy, fun s hs => absurd hs (by simp)⟩
      | dt i => exact Or.inr ⟨hy, fun s hs => absurd hs (by simp)⟩
      | oid o => exact Or.inr ⟨hy, fun s hs => absurd hs (by simp)⟩
      | list l => exact Or.inr ⟨hy, fun s hs => absurd hs (by simp)⟩

theorem mem_get_documents (docs : List Doc) (fl : Filter) (limit : Nat) (d : Doc)
    (h : d ∈ get_documents docs fl limit) : d ∈ docs :=
  List.mem_of_mem_filter (List.take_subset limit _ h)

/-- C5: over any store whose documents carry their store-assigned
identifiers and whose promotions do not already contain enrichment keys,
every promotion listing succeeds, and each returned promotion whose
business reference matches no business in the store comes back without
the `business_name` and `industry` keys. -/
theorem enrichment_miss_is_silent (st : Store) (q tag business_id : Option String)
    (active : Option Bool) (limit : Nat)
    (hB : ∀ b ∈ st.business, ∃ v, getField b "_id" = some v)
    (hP : ∀ d ∈ st.promotion, ∃ v, getField d "_id" = some v)
    (hPclean : ∀ d ∈ st.promotion,
      hasField d "business_name" = false ∧ hasField d "industry" = false) :
    ∃ out, list_promotions st q tag business_id active limit = .ok out ∧
      ∀ y ∈ out,
        (∀ s, getField y "business_id" = some (.str s) → lookupBusiness st s = none) →
        hasField y "business_name" = false ∧ hasField y "industry" = false := by
  obtain ⟨m, hm, hpy⟩ := buildBusinessMap_project st.business hB
  have hdocs : ∀ d ∈ get_documents st.promotion
      (promotionFilter q tag business_id active) limit, d ∈ st.promotion :=
    fun d hd => mem_get_documents _ _ _ _ hd
  have hall : ∀ d ∈ get_documents st.promotion
      (promotionFilter q tag business_id active) limit,
      ∃ y, processDoc m d = .ok y := by
    intro d hd
    obtain ⟨v, hv⟩ := hP d (hdocs d hd)
    refine ⟨enrichDoc m ((setField (eraseField d "_id") "id"
      (.str (valueToString v))).map isoEntry), ?_⟩
    unfold processDoc
    rw [serializeDoc_ok_of_id d v hv]
    rfl
  obtain ⟨out, hout⟩ := mapM_ok_of_all_ok _ _ hall
  have hlp : list_promotions st q tag business_id active limit = .ok out := by
    unfold list_promotions
    rw [hm]
    exact hout
  refine ⟨out, hlp, ?_⟩
  intro y hy hmiss
  obtain ⟨d, hd, hpd⟩ := mapM_ok_mem _ _ _ hout y hy
  obtain ⟨sd, hser, hcases⟩ := processDoc_cases m d y hpd
  rcases hcases with ⟨s, b0, hbid, hget, hyeq⟩ | ⟨hyeq, _⟩
  · exfalso
    have hybid : getField y "business_id" = some (.str s) := by
      rw [hyeq, getField_setField_ne _ "industry" _ _ (by decide),
        getField_setField_ne _ "business_name" _ _ (by decide)]
      exact hbid
    have hnone := hmiss s hybid
    rw [lookupBusiness_def] at hnone
    rw [hpy s, hnone] at hget
    exact absurd hget (by simp)
  · rw [hyeq]
    have hclean := hPclean d (hdocs d hd)
    exact ⟨hasField_false_of_getField_serialize d sd "business_name" hser
        hclean.1 (by decide),
      hasField_false_of_getField_serialize d sd "industry" hser
        hclean.2 (by decide)⟩

/-- C6: in any successful promotion listing, a returned promotion whose
business reference matches an existing business carries that business's
display name in `business_name` and its industry in `industry`. -/
theorem enrichment_join_copies_fields (st : Store) (q tag business_id : Option String)
    (active : Option Bool) (limit : Nat) (out : List Doc)
    (hok : list_promotions st q tag business_id active limit = .ok out) :
    ∀ y ∈ out, ∀ s, getField y "business_id" = some (.str s) →
      ∀ biz, lookupBusiness st s = some biz →
        getField y "business_name" = some ((getField biz "name").getD .null) ∧
        getField y "industry" = some ((getField biz "industry").getD .null) := by
  unfold list_promotions at hok
  cases hm : buildBusinessMap (st.business.map projectBusiness) with
  | error e =>
    rw [hm] at hok
    exact absurd (show (Except.error e : Except Err (List Doc)) = .ok out from hok)
      (by simp)
  | ok m =>
    rw [hm] at hok
    have hout : (get_documents st.promotion
        (promotionFilter q tag business_id active) limit).mapM (processDoc m) =
        .ok out := hok
    have hB : ∀ b ∈ st.business, ∃ v, getField b "_id" = some v := by
      intro b hb
      obtain ⟨v, hv⟩ := buildBusinessMap_ok_ids _ m hm (projectBusiness b)
        (List.mem_map_of_mem projectBusiness hb)
      exact ⟨v, by rw [← getField_projectBusiness b "_id" (Or.inl rfl)]; exact hv⟩
    obtain ⟨m', hm', hpy⟩ := buildBusinessMap_project st.business hB
    have hmm : m' = m := by
      rw [hm] at hm'
      exact ((Except.ok.injEq _ _).mp hm').symm
    subst hmm
    intro y hy s hybid biz hbiz
    obtain ⟨d, hd, hpd⟩ := mapM_ok_mem _ _ _ hout y hy
    obtain ⟨sd, hser, hcases⟩ := processDoc_cases m' d y hpd
    rcases hcases with ⟨s0, b0, hbid, hget, hyeq⟩ | ⟨hyeq, hnone⟩
    · have hss : s0 = s := by
        have h1 : getField y "business_id" = some (.str s0) := by
          rw [hyeq, getField_setField_ne _ "industry" _ _ (by decide),
            getField_setField_ne _ "business_name" _ _ (by decide)]
          exact hbid
        rw [h1] at hybid
        exact (Value.str.injEq _ _).mp ((Option.some.injEq _ _).mp hybid)
      subst hss
      rw [lookupBusiness_def] at hbiz
      rw [hpy s0, hbiz] at hget
      have hb0 : b0 = projectBusiness biz :=
        ((Option.some.injEq _ _).mp hget).symm
      subst hb0
      constructor
      · rw [hyeq, getField_setField_ne _ "industry" _ _ (by decide),
          getField_setField_self,
          getField_projectBusiness biz "name" (Or.inr (Or.inl rfl))]
      · rw [hyeq, getField_setField_self,
          getField_projectBusiness biz "industry" (Or.inr (Or.inr rfl))]
    · exfalso
      have hsd : getField sd "business_id" = some (.str s) := by
        rw [← hyeq]
        exact hybid
      have hmiss := hnone s hsd
      rw [lookupBusiness_def] at hbiz
      rw [hpy s, hbiz] at hmiss
      exact absurd hmiss (by simp)

/-- Witness for C5: the spec's miss example — one business `b1`, one
promotion referencing the absent `b2` — lists successfully and the
orphan promotion comes back without the enrichment keys. -/
theorem enrichment_miss_is_silent_witness :
    ∃ out, list_promotions missStore none none none defaultActive 100 = .ok out ∧
      ∀ y ∈ out,
        (∀ s, getField y "business_id" = some (.str s) →
          lookupBusiness missStore s = none) →
        hasField y "business_name" = false ∧ hasField y "industry" = false :=
  enrichment_miss_is_silent missStore none none none defaultActive 100
    (by
      intro b hb
      simp only [missStore] at hb
      rw [List.mem_singleton] at hb
      subst hb
      exact ⟨Value.oid "b1", rfl⟩)
    (by
      intro d hd
      simp only [missStore] at hd
      rw [List.mem_singleton] at hd
      subst hd
      exact ⟨Value.oid "p2", rfl⟩)
    (by
      intro d hd
      simp only [missStore] at hd
      rw [List.mem_singleton] at hd
      subst hd
      exact ⟨rfl, rfl⟩)

/-- Witness for C6: the spec's enrichment example — business
`{id: b1, name: Acme, industry: Retail}` and promotion
`{id: p1, business_id: b1, title: Sale}` — returns the promotion with
`business_name` Acme and `industry` Retail. -/
theorem enrichment_join_copies_fields_witness :
    getField enrichedSale "business_name" = some (Value.str "Acme") ∧
    getField enrichedSale "industry" = some (Value.str "Retail") :=
  enrichment_join_copies_fields sampleStore none none none defaultActive 100
    [enrichedSale] (by rfl) enrichedSale (List.mem_singleton.mpr rfl)
    "b1" (by rfl) acmeBusiness (by rfl)

end PromoSaas
